import Mathlib

/-!
Verification of the RBC Direct Investing activity-statement importer
(`lib/python/beancount2/imports/sources/rbcinvesting.py`).

The development shallowly embeds the two components the specification
describes: row normalization (`fixup_row` and the `decimal` coercion helper,
source lines 186-239) and the per-row posting synthesis performed inside the
row loop of `import_excel_file` (source lines 88-181).  Python `Decimal`
values are embedded as an integer coefficient with a count of fractional
digits; Python regular-expression searches are embedded as explicit scanning
functions over character lists.
-/

namespace RBC

/-- Python `decimal.Decimal` values as this importer produces them: a signed
integer coefficient `num` together with the number of fractional digits
`exp`, denoting the value `num / 10 ^ exp`.  The importer only ever builds
finite decimals (parsed literals, exact products, exact division by 1000). -/
structure Dec where
  num : Int
  exp : Nat
deriving DecidableEq

/-- Value-level equality of two decimals.  Python `Decimal.__eq__` compares
numeric values, not representations, so `Decimal("5.00") == Decimal("5")`. -/
def Dec.eqv (a b : Dec) : Bool :=
  a.num * (10 : Int) ^ b.exp == b.num * (10 : Int) ^ a.exp

/-- Exact product of two decimals (`Decimal.__mul__` is exact at the sizes
appearing here): coefficients multiply, fractional digit counts add. -/
def Dec.mul (a b : Dec) : Dec := ⟨a.num * b.num, a.exp + b.exp⟩

/-- Negation of a decimal (`Decimal.__neg__`). -/
def Dec.neg (a : Dec) : Dec := ⟨-a.num, a.exp⟩

/-- One step of the trailing-zero removal that Python `Decimal` division
applies to an exact quotient: while the exponent is below the ideal exponent
(`target` fractional digits) and the coefficient ends in a zero digit, drop
that zero. -/
def reduceStep (target : Nat) (d : Dec) : Dec :=
  if target < d.exp && d.num % 10 == 0 then ⟨d.num / 10, d.exp - 1⟩ else d

/-- `d / 1000` with Python `Decimal` semantics (source line 204): the exact
quotient `num / 10 ^ (exp + 3)`, with trailing zeros of the coefficient
removed until the exponent reaches the ideal exponent of the division (the
dividend's own exponent).  At most three removals are possible, so three
`reduceStep` applications compute the fixpoint. -/
def Dec.div1000 (d : Dec) : Dec :=
  reduceStep d.exp (reduceStep d.exp (reduceStep d.exp ⟨d.num, d.exp + 3⟩))

/-- ASCII decimal digit test, the character class `[0-9]`. -/
def isDigitChar (c : Char) : Bool := '0' ≤ c && c ≤ '9'

/-- The character class `[0-9,]` used by the dollar-amount pattern
`\$([0-9,]+\.[0-9]+)` at source line 104. -/
def isAmtChar (c : Char) : Bool := isDigitChar c || c == ','

/-- ASCII word characters, the `\w` class of the regular expressions used
here (the descriptions this importer reads are ASCII). -/
def isWordChar (c : Char) : Bool :=
  isDigitChar c || ('a' ≤ c && c ≤ 'z') || ('A' ≤ c && c ≤ 'Z') || c == '_'

/-- Numeric value of an ASCII digit character. -/
def dval (c : Char) : Nat := c.toNat - '0'.toNat

/-- The ASCII digit character of a digit value below ten. -/
def digitChar : Nat → Char
  | 0 => '0'
  | 1 => '1'
  | 2 => '2'
  | 3 => '3'
  | 4 => '4'
  | 5 => '5'
  | 6 => '6'
  | 7 => '7'
  | 8 => '8'
  | _ => '9'

/-- Accumulating decimal-digit parser: `parseFold a ds` extends the numeral
`a` with the digit characters `ds`. -/
def parseFold (a : Nat) : List Char → Nat
  | [] => a
  | c :: cs => parseFold (a * 10 + dval c) cs

/-- Big-endian decimal digit characters of a natural number; `fuel` bounds
the recursion and any `fuel > n` computes the digits of `n`. -/
def natToDigitsAux : Nat → Nat → List Char
  | 0, _ => []
  | fuel + 1, n =>
    if n < 10 then [digitChar n]
    else natToDigitsAux fuel (n / 10) ++ [digitChar (n % 10)]

/-- Big-endian decimal digit characters of a natural number (`"0"` for 0,
no leading zeros otherwise), as Python renders integers. -/
def natToDigits (n : Nat) : List Char := natToDigitsAux (n + 1) n

/-- Left-pad a digit string with zeros to width `w`. -/
def padZeros (w : Nat) (cs : List Char) : List Char :=
  List.replicate (w - cs.length) '0' ++ cs

/-- Parse a non-empty all-digit character list as a natural number. -/
def parseDigits (cs : List Char) : Option Nat :=
  if cs.isEmpty then none
  else if cs.all isDigitChar then some (parseFold 0 cs) else none

/-- Split a character list at every `'-'`, the shape of the fixed
`%Y-%m-%d` format that `datetime.strptime` matches at lines 194-195. -/
def splitDash : List Char → List (List Char)
  | [] => [[]]
  | c :: cs =>
    if c = '-' then [] :: splitDash cs
    else
      match splitDash cs with
      | [] => [[c]]
      | p :: ps => (c :: p) :: ps

/-- Calendar dates as produced by `datetime.date`. -/
structure Date where
  year : Nat
  month : Nat
  day : Nat
deriving DecidableEq

/-- Gregorian leap-year test, as `datetime` uses. -/
def isLeap (y : Nat) : Bool := (y % 4 == 0 && !(y % 100 == 0)) || y % 400 == 0

/-- Number of days of a month, as `datetime.date` validates. -/
def daysInMonth (y m : Nat) : Nat :=
  if m = 2 then (if isLeap y then 29 else 28)
  else if m = 4 ∨ m = 6 ∨ m = 9 ∨ m = 11 then 30
  else 31

/-- `datetime.datetime.strptime(s, "%Y-%m-%d").date()` (source lines
194-195): exactly three dash-separated digit groups, the year of one to four
digits, month and day of one or two digits, with the month, day and year
ranges that `datetime.date` accepts; any mismatch raises, embedded as
`none`. -/
def parseDate (s : String) : Option Date :=
  match splitDash s.data with
  | [ys, ms, ds] =>
    match parseDigits ys, parseDigits ms, parseDigits ds with
    | some y, some m, some d =>
      if ys.length ≤ 4 ∧ ms.length ≤ 2 ∧ ds.length ≤ 2 ∧
         1 ≤ y ∧ y ≤ 9999 ∧ 1 ≤ m ∧ m ≤ 12 ∧ 1 ≤ d ∧ d ≤ daysInMonth y m
      then some ⟨y, m, d⟩ else none
    | _, _, _ => none
  | _ => none

/-- ISO rendering of a date, which is Python `str(datetime.date)`:
zero-padded `YYYY-MM-DD`. -/
def formatDateChars (d : Date) : List Char :=
  padZeros 4 (natToDigits d.year) ++
    '-' :: (padZeros 2 (natToDigits d.month) ++ '-' :: padZeros 2 (natToDigits d.day))

/-- ISO rendering of a date as a string. -/
def formatDate (d : Date) : String := ⟨formatDateChars d⟩

/-- Split a character list at its first `'.'`, keeping the remainder of the
list (which may itself still contain dots, rejected later by the digit
checks). -/
def splitDotAux : List Char → List Char × Option (List Char)
  | [] => ([], none)
  | c :: cs =>
    if c = '.' then ([], some cs)
    else
      let r := splitDotAux cs
      (c :: r.1, r.2)

/-- Remove every comma, which is `strord.replace(',', '')` at line 239. -/
def stripCommas (cs : List Char) : List Char := cs.filter (fun c => !(c == ','))

/-- Digits part of the `Decimal(string)` constructor, after the optional
sign has been consumed: split at the decimal point, require every remaining
character to be a digit and at least one digit overall, and build the
coefficient from the concatenated digits with the fraction length as the
exponent. -/
def parseDecTail (neg : Bool) (cs1 : List Char) : Option Dec :=
  let ipfo := splitDotAux cs1
  let fp := ipfo.2.getD []
  if ipfo.1.isEmpty && fp.isEmpty then none
  else if ipfo.1.all isDigitChar && fp.all isDigitChar then
    some ⟨if neg then -(Int.ofNat (parseFold 0 (ipfo.1 ++ fp)))
          else Int.ofNat (parseFold 0 (ipfo.1 ++ fp)), fp.length⟩
  else none

/-- The `Decimal(string)` constructor on the comma-stripped text (line 239),
for the finite decimal literals this importer meets: an optional sign, then
digits with at most one decimal point and at least one digit overall.
Anything else (including the empty string) raises `InvalidOperation`,
embedded as `none`. -/
def parseDecCore (cs : List Char) : Option Dec :=
  match cs with
  | [] => parseDecTail false []
  | c :: r =>
    if c = '-' then parseDecTail true r
    else if c = '+' then parseDecTail false r
    else parseDecTail false (c :: r)

/-- The `decimal` helper of the importer (source lines 231-239) on string
input: the empty string yields `Decimal()` which is zero; otherwise commas
are stripped and the text is parsed as a decimal literal.  (The
`isinstance(strord, Decimal)` branch is the identity and is inlined at the
call sites below.) -/
def decimal (s : String) : Option Dec :=
  if s.data.isEmpty then some ⟨0, 0⟩
  else parseDecCore (stripCommas s.data)

/-- Characters of Python `str(Decimal)` for the non-negative-exponent
decimals of this importer: the coefficient digits padded so that at least
one digit precedes the decimal point, the point inserted before the last
`exp` digits when `exp` is positive, and a leading minus sign for negative
coefficients. -/
def renderDecChars (d : Dec) : List Char :=
  let mag := padZeros (d.exp + 1) (natToDigits d.num.natAbs)
  let body :=
    if d.exp = 0 then mag
    else mag.take (mag.length - d.exp) ++ '.' :: mag.drop (mag.length - d.exp)
  (if d.num < 0 then ['-'] else []) ++ body

/-- Python `str(Decimal)` as a string. -/
def renderDec (d : Dec) : String := ⟨renderDecChars d⟩

/-- Character-list prefix test. -/
def isPrefixChars : List Char → List Char → Bool
  | [], _ => true
  | _ :: _, [] => false
  | a :: as, b :: bs => a == b && isPrefixChars as bs

/-- Character-level suffix test between strings, the formal reading of one
string ending with another. -/
def endsWithFrag (s frag : String) : Bool :=
  isPrefixChars frag.data.reverse s.data.reverse

/-- `re.match('1000THS', row.description)` at source line 203: `re.match`
anchors at the beginning of the text, so this is a prefix test. -/
def startsWith1000THS (s : String) : Bool := isPrefixChars "1000THS".data s.data

/-- Continuation `rest` of an occurrence of `DIST` when the scanned text
continues with `IST`. -/
def istRest : List Char → Option (List Char)
  | 'I' :: 'S' :: 'T' :: rest => some rest
  | _ => none

/-- A `\b` word boundary holds before the match when the preceding
character (if any) is not a word character. -/
def boundaryBefore : Option Char → Bool
  | none => true
  | some c => !(isWordChar c)

/-- A `\b` word boundary holds after the match when the following character
(if any) is not a word character. -/
def boundaryAfter : List Char → Bool
  | [] => true
  | c :: _ => !(isWordChar c)

/-- Scanner of `re.search(r'\bDIST\b', description)` (source line 213),
carrying the previously scanned character for the left word boundary. -/
def hasWordDISTAux : Option Char → List Char → Bool
  | _, [] => false
  | prev, c :: cs =>
    (c == 'D' &&
      (match istRest cs with
       | some rest => boundaryBefore prev && boundaryAfter rest
       | none => false)) || hasWordDISTAux (some c) cs

/-- Whether the description contains `DIST` as a standalone word, which is
`re.search(r'\bDIST\b', description)` at source line 213. -/
def hasWordDIST (s : String) : Bool := hasWordDISTAux none s.data

/-- Attempted match of `([0-9,]+\.[0-9]+)` at a fixed position directly
after a `'$'`: a maximal non-empty run of digits and commas, a literal dot,
then a maximal non-empty run of digits; the returned group is the matched
text.  The runs are greedy and need no backtracking because the dot belongs
to neither class. -/
def dollarGroupHere (cs : List Char) : Option (List Char) :=
  let mid := cs.takeWhile isAmtChar
  let rest := cs.dropWhile isAmtChar
  if mid.isEmpty then none
  else
    match rest with
    | c :: rest2 =>
      if c = '.' then
        let frac := rest2.takeWhile isDigitChar
        if frac.isEmpty then none else some (mid ++ '.' :: frac)
      else none
    | [] => none

/-- `re.search(r'\$([0-9,]+\.[0-9]+)', description)` (source line 104):
scan left to right for the first `'$'` at which the group matches, returning
the captured group. -/
def searchDollarGroup : List Char → Option (List Char)
  | [] => none
  | c :: cs =>
    if c = '$' then
      match dollarGroupHere cs with
      | some g => some g
      | none => searchDollarGroup cs
    else searchDollarGroup cs

/-- The auxiliary description amount of source lines 104-105:
`decimal(mo.group(1))` when the dollar pattern matches, otherwise `None`. -/
def description_amount (s : String) : Option Dec :=
  (searchDollarGroup s.data).bind (fun g => decimal ⟨g⟩)

/-- Python truthiness of the optional description amount, the semantics of
`assert description_amount` and `assert not description_amount` (source
lines 134, 152, 158): `None` is falsy and so is a zero `Decimal`. -/
def truthyOptDec : Option Dec → Bool
  | none => false
  | some d => !(d.num == 0)

/-- One raw row of the converted activity table, all fields text, as the
CSV tuple reader yields them. -/
structure RawRow where
  action : String
  symbol : String
  description : String
  date : String
  settlement : String
  quantity : String
  price : String
  amount : String
  currency : String
deriving DecidableEq

/-- The normalized row produced by `fixup_row`: parsed dates, decimal
quantity, price and amount, and a resolved action. -/
structure CanonicalRow where
  action : String
  symbol : String
  description : String
  currency : String
  date : Date
  settlement : Date
  quantity : Dec
  price : Dec
  amount : Dec
deriving DecidableEq

/-- Failures of `fixup_row`: a date that does not match `%Y-%m-%d`, a
numeric field that is not a decimal literal, and the final
`assert action, row.description` (source line 216), which carries the
description text. -/
inductive FixupError where
  | dateParseError : FixupError
  | numberParseError : FixupError
  | malformedRow : String → FixupError
deriving DecidableEq

/-- The guard of the amount back-fill at source line 207, `row.amount ==
'0'`.  At this point `row.amount` is a `Decimal` (replaced at lines
198-200), and in Python 3 comparing a `Decimal` with a `str` by `==` is
always `False`: `Decimal.__eq__` returns `NotImplemented` for a `str`
operand, `str.__eq__` returns `NotImplemented` for a `Decimal` operand, and
the interpreter then falls back to identity, which fails for distinct
objects.  The back-fill branch of line 208 is therefore unreachable. -/
def amountEqStrZero (_a : Dec) : Bool := false

/-- Python value equality of two canonical rows, which is namedtuple
equality with `Decimal` fields compared by numeric value. -/
def crowEq (x y : CanonicalRow) : Bool :=
  x.action == y.action && x.symbol == y.symbol &&
  x.description == y.description && x.currency == y.currency &&
  x.date == y.date && x.settlement == y.settlement &&
  Dec.eqv x.quantity y.quantity && Dec.eqv x.price y.price &&
  Dec.eqv x.amount y.amount

/-- The row normalizer `fixup_row` (source lines 186-218): parse the two
dates, coerce quantity, price and amount to decimals, divide the quantity by
1000 when the description starts with the `1000THS` marker, back-fill the
amount when the (dead, see `amountEqStrZero`) zero test succeeds, infer the
action `DIST` from the description when the action field is empty, and fail
when the action is still empty. -/
def fixup_row (row : RawRow) : Except FixupError CanonicalRow :=
  match parseDate row.date, parseDate row.settlement with
  | some d, some st =>
    match decimal row.quantity, decimal row.price, decimal row.amount with
    | some q0, some p, some a0 =>
      let q := if startsWith1000THS row.description then Dec.div1000 q0 else q0
      let a := if amountEqStrZero a0 then Dec.mul q p else a0
      let action :=
        if row.action = "" then
          (if hasWordDIST row.description then "DIST" else row.action)
        else row.action
      if action = "" then Except.error (FixupError.malformedRow row.description)
      else Except.ok ⟨action, row.symbol, row.description, row.currency, d, st, q, p, a⟩
    | _, _, _ => Except.error FixupError.numberParseError
  | _, _ => Except.error FixupError.dateParseError

/-- Modelled from the spec: the spec's idempotence property re-renders a
canonical row back to raw text fields before normalizing again; no such
renderer exists in the repository, so it is modelled as rendering each field
with Python `str` semantics, dates in ISO `YYYY-MM-DD` form and decimals via
`renderDec`. -/
def normalize_as_raw (c : CanonicalRow) : RawRow :=
  ⟨c.action, c.symbol, c.description, formatDate c.date, formatDate c.settlement,
   renderDec c.quantity, renderDec c.price, renderDec c.amount, c.currency⟩

/-- Modelled from the spec: the repository's `beancount2.core.data` module
(the ledger library, outside the importer source) defines the transaction
and posting types; per the spec a posting is an account reference, a signed
quantity, a currency or commodity code, and an optional cost-basis lot of
unit cost and cost currency. -/
structure Posting where
  account : String
  number : Dec
  currency : String
  cost : Option (Dec × String)
deriving DecidableEq

/-- Modelled from the spec: a ledger transaction is a source row index (the
file-location tag), a date, a narration and an ordered posting list. -/
structure Transaction where
  fileIndex : Nat
  date : Date
  narration : String
  postings : List Posting
deriving DecidableEq

/-- Modelled from the spec: `create_simple_posting(entry, account, number,
currency)` of `beancount2.core.data` appends to the transaction a posting
with no cost basis; embedded as the posting being appended. -/
def create_simple_posting (account : String) (number : Dec) (currency : String) : Posting :=
  ⟨account, number, currency, none⟩

/-- Modelled from the spec: `create_simple_posting_with_cost(entry, account,
number, currency, cost_number, cost_currency)` of `beancount2.core.data`
appends a posting carrying a cost-basis lot; embedded as the posting being
appended. -/
def create_simple_posting_with_cost (account : String) (number : Dec)
    (currency : String) (costNumber : Dec) (costCurrency : String) : Posting :=
  ⟨account, number, currency, some (costNumber, costCurrency)⟩

/-- The account-mapping configuration; the synthesis rules read only the
`cash`, `positions` and `dividend` entries (source lines 119, 139, 148, 160,
162), each embedded by its account name string. -/
structure Config where
  cash : String
  positions : String
  dividend : String
deriving DecidableEq

/-- Failures of the synthesis of one row: the `Unknown action` error of
source line 170 carrying the literal action text, an `assert` failure
(lines 134, 152, 158), and the Python `UnboundLocalError` raised when
`account_position` is read before any row with a symbol assigned it (lines
117-120). -/
inductive RowError where
  | unknownAction : String → RowError
  | assertionError : RowError
  | unboundLocalAccountPosition : RowError
deriving DecidableEq

/-- The settlement narration fragment of source lines 96-100: omitted when
the settlement date equals the trade date, otherwise a formatted
`Settlement:` note. -/
def settlementFragments (row : CanonicalRow) : List String :=
  if row.settlement = row.date then []
  else ["Settlement: " ++ formatDate row.settlement]

/-- The narration of source lines 113-114: the non-empty entries of action,
symbol, description and the settlement fragment, joined by a fixed
delimiter (`filter(None, ...)` drops both `None` and empty strings). -/
def narrationOf (row : CanonicalRow) : String :=
  String.intercalate " -- "
    (([row.action, row.symbol, row.description] ++ settlementFragments row).filter
      (fun s => !(s == "")))

/-- The per-share fragment built in the `DIST` arm at source line 167,
`'{} per share'.format(row.price)`.  It is appended to the local list
`extra_narration` (line 123), which is never read afterwards. -/
def dist_extra_narration (price : Dec) : String := renderDec price ++ " per share"

/-- Synthesis of one row, the body of the row loop of `import_excel_file`
(source lines 88-181).  `accountPosition` is the current value of the
`account_position` local of the enclosing function, which persists across
loop iterations; the returned pair carries its updated value together with
the emitted transaction.  The classification follows the `if`/`elif` chain
of lines 124-170. -/
def processRow (config : Config) (accountPosition : Option String) (index : Nat)
    (row : CanonicalRow) : Except RowError (Option String × Transaction) :=
  let descriptionAmount := description_amount row.description
  let acctPos :=
    if row.symbol = "" then accountPosition
    else some (config.positions ++ ":" ++ row.symbol)
  let txn : List Posting → Transaction := fun ps =>
    ⟨index, row.date, narrationOf row, ps⟩
  if row.action = "ADJ RR" then Except.ok (acctPos, txn [])
  else if row.action = "RTC RR" then Except.ok (acctPos, txn [])
  else if row.action = "EXH AB" then Except.ok (acctPos, txn [])
  else if row.action = "DIV F6" then
    match descriptionAmount with
    | none => Except.error RowError.assertionError
    | some da =>
      if da.num = 0 then Except.error RowError.assertionError
      else
        match acctPos with
        | none => Except.error RowError.unboundLocalAccountPosition
        | some acct =>
          Except.ok (acctPos, txn
            [create_simple_posting_with_cost acct row.quantity row.symbol da row.currency,
             create_simple_posting config.dividend (Dec.neg (Dec.mul row.quantity da)) row.currency])
  else if row.action = "Buy" ∨ row.action = "Sell" then
    match acctPos with
    | none => Except.error RowError.unboundLocalAccountPosition
    | some acct =>
      Except.ok (acctPos, txn
        [create_simple_posting_with_cost acct row.quantity row.symbol row.price row.currency,
         create_simple_posting config.cash row.amount row.currency])
  else if row.action = "SEL FF" ∨ row.action = "PUR FF" then
    if truthyOptDec descriptionAmount then Except.error RowError.assertionError
    else
      match acctPos with
      | none => Except.error RowError.unboundLocalAccountPosition
      | some acct =>
        Except.ok (acctPos, txn [create_simple_posting acct row.quantity row.symbol])
  else if row.action = "DIST" then
    if truthyOptDec descriptionAmount then Except.error RowError.assertionError
    else
      Except.ok (acctPos, txn
        [create_simple_posting config.dividend (Dec.neg row.amount) row.currency,
         create_simple_posting config.cash row.amount row.currency])
  else Except.error (RowError.unknownAction row.action)

/-- The set of action codes the classification chain of lines 124-170
recognizes. -/
def recognizedActions : List String :=
  ["ADJ RR", "RTC RR", "EXH AB", "DIV F6", "Buy", "Sell", "SEL FF", "PUR FF", "DIST"]

/-- The arm precondition actually enforced before `account_position` is
read: `DIV F6` asserts a truthy description amount, `SEL FF` and `PUR FF`
assert a falsy one, the other arms have none. -/
def armPreOk (row : CanonicalRow) : Bool :=
  if row.action = "DIV F6" then truthyOptDec (description_amount row.description)
  else if row.action = "SEL FF" ∨ row.action = "PUR FF" then
    !truthyOptDec (description_amount row.description)
  else true

/-- A raw row whose amount field is the text `"0"`: quantity 10 at price
5.00, so the spec's back-fill would set the amount to 50.00. -/
def c1raw : RawRow :=
  ⟨"Buy", "XYZ", "", "2013-06-01", "2013-06-01", "10", "5.00", "0", "USD"⟩

/-- The account mapping used by the concrete scenarios. -/
def witnessConfig : Config := ⟨"Assets:Cash", "Assets:Positions", "Income:Dividend"⟩

/-- The spec's `DIST` end-to-end scenario row: amount 25.00, price 2.50,
empty description. -/
def c2row : CanonicalRow :=
  ⟨"DIST", "", "", "USD", ⟨2013, 6, 1⟩, ⟨2013, 6, 1⟩, ⟨0, 0⟩, ⟨250, 2⟩, ⟨2500, 2⟩⟩

/-- A raw row whose description contains the `1000THS` marker but not at the
start. -/
def c3raw : RawRow :=
  ⟨"Buy", "XYZ", "X 1000THS", "2013-06-01", "2013-06-01", "1000", "1.00", "1000.00", "USD"⟩

/-- A raw row whose description starts with the `1000THS` marker. -/
def c3markerRaw : RawRow :=
  ⟨"Buy", "XYZ", "1000THS PAR", "2013-06-01", "2013-06-01", "1000", "1.00", "1000.00", "USD"⟩

/-- The canonical row `fixup_row` produces from `c3markerRaw`: the quantity
1000 has been divided by 1000. -/
def c3markerCrow : CanonicalRow :=
  ⟨"Buy", "XYZ", "1000THS PAR", "USD", ⟨2013, 6, 1⟩, ⟨2013, 6, 1⟩, ⟨1, 0⟩, ⟨100, 2⟩,
   ⟨100000, 2⟩⟩

/-- A raw row with the `1000THS` marker at the start of the description,
used to break idempotence of normalization. -/
def c4raw : RawRow :=
  ⟨"Sell", "XYZ", "1000THS PAR VALUE", "2013-06-01", "2013-06-01", "1000", "1.00",
   "1000.00", "USD"⟩

/-- A marker-free raw row, the spec's buy scenario. -/
def c4wraw : RawRow :=
  ⟨"Buy", "XYZ", "", "2013-06-01", "2013-06-04", "10", "5.00", "50.00", "USD"⟩

/-- The canonical row `fixup_row` produces from `c4wraw`. -/
def c4wcrow : CanonicalRow :=
  ⟨"Buy", "XYZ", "", "USD", ⟨2013, 6, 1⟩, ⟨2013, 6, 4⟩, ⟨10, 0⟩, ⟨500, 2⟩, ⟨5000, 2⟩⟩

/-- The spec's buy end-to-end scenario as a canonical row. -/
def c5row : CanonicalRow :=
  ⟨"Buy", "XYZ", "", "USD", ⟨2013, 6, 1⟩, ⟨2013, 6, 4⟩, ⟨10, 0⟩, ⟨500, 2⟩, ⟨5000, 2⟩⟩

/-- A raw row with an empty action field and a description carrying `DIST`
as a standalone word. -/
def c7row : RawRow :=
  ⟨"", "", "CASH DIST", "2013-06-01", "2013-06-01", "", "", "", ""⟩

/-- A buy row with an empty symbol field. -/
def c9row : CanonicalRow :=
  ⟨"Buy", "", "", "USD", ⟨2013, 6, 1⟩, ⟨2013, 6, 1⟩, ⟨5, 0⟩, ⟨100, 2⟩, ⟨500, 2⟩⟩

/-- A `DIV F6` row whose description carries a dollar amount of exactly
zero. -/
def c10row : CanonicalRow :=
  ⟨"DIV F6", "XYZ", "PAID $0.00 DIV", "USD", ⟨2013, 6, 1⟩, ⟨2013, 6, 1⟩, ⟨10, 0⟩,
   ⟨0, 0⟩, ⟨0, 0⟩⟩

/-- C1: the claim (and the spec, and the comment at source line 206) say a
zero amount is recomputed as quantity times price, but the guard at line 207
compares the converted `Decimal` amount with the `str` `'0'`, which is
always false in Python 3, so the back-fill never fires: on a row with
amount `"0"`, quantity 10 and price 5.00 the normalized amount stays 0 and
is not equal to quantity times price. -/
theorem c1_backfill_dead :
    (fixup_row c1raw).toOption.map
        (fun c => (c.amount, Dec.eqv c.amount (Dec.mul c.quantity c.price))) =
      some (⟨0, 0⟩, false) := rfl

/-- C2: the claim says the `DIST` narration ends with a `per share`
fragment, but the fragment built at source line 167 is appended to the local
`extra_narration` list (line 123) which is never read again; on the spec's
own `DIST` scenario the emitted transaction carries the dividend and cash
legs of plus and minus 25.00, yet its narration is exactly `"DIST"` and does
not end with `"2.50 per share"`. -/
theorem c2_dist_narration_dropped :
    processRow witnessConfig none 0 c2row =
      Except.ok (none,
        ⟨0, ⟨2013, 6, 1⟩, "DIST",
         [⟨"Income:Dividend", ⟨-2500, 2⟩, "USD", none⟩,
          ⟨"Assets:Cash", ⟨2500, 2⟩, "USD", none⟩]⟩) ∧
    dist_extra_narration c2row.price = "2.50 per share" ∧
    endsWithFrag "DIST" (dist_extra_narration c2row.price) = false :=
  ⟨rfl, rfl, rfl⟩

/-- C3 counterexample: a description that contains `1000THS` in the middle
rather than at the start; `re.match` anchors at the beginning, so the
quantity 1000 is left unchanged and differs from the claimed parsed quantity
divided by 1000. -/
theorem c3_counterexample :
    c3raw.description = "X " ++ "1000THS" ∧
    decimal c3raw.quantity = some ⟨1000, 0⟩ ∧
    (fixup_row c3raw).toOption.map
        (fun c => (c.quantity, Dec.eqv c.quantity (Dec.div1000 ⟨1000, 0⟩))) =
      some (⟨1000, 0⟩, false) :=
  ⟨rfl, rfl, rfl⟩

/-- C4 counterexample: on a row whose description starts with `1000THS`,
normalizing, rendering back to raw text and normalizing again divides the
quantity by 1000 a second time, so the resulting canonical row differs from
the first one and normalization is not idempotent. -/
theorem c4_counterexample :
    (fixup_row c4raw).toOption.bind
        (fun c => (fixup_row (normalize_as_raw c)).toOption.map (fun c2 => crowEq c2 c)) =
      some false := rfl

/-- C8 counterexample: the fraction of the dollar pattern at source line 104
is `[0-9]+`, one or more digits, so the one-decimal figure `$1.5` is matched
and parsed as 1.5, while the claim says extraction returns nothing when the
fraction is not exactly two digits. -/
theorem c8_counterexample : description_amount "$1.5" = some ⟨15, 1⟩ := rfl

/-- C5: for a canonical row with action `Buy` or `Sell` and a non-empty
symbol, synthesis emits exactly two postings in order: a cost-basis posting
on the per-symbol position account of the row's quantity units of the symbol
at unit cost equal to the row's price in the row's currency, then a posting
on the cash account of the row's amount in the row's currency. -/
theorem c5_buy_sell_postings (config : Config) (st : Option String) (idx : Nat)
    (row : CanonicalRow) (h : row.action = "Buy" ∨ row.action = "Sell")
    (hs : row.symbol ≠ "") :
    processRow config st idx row =
      Except.ok (some (config.positions ++ ":" ++ row.symbol),
        ⟨idx, row.date, narrationOf row,
         [⟨config.positions ++ ":" ++ row.symbol, row.quantity, row.symbol,
           some (row.price, row.currency)⟩,
          ⟨config.cash, row.amount, row.currency, none⟩]⟩) := by
  rcases h with h | h <;>
    simp [processRow, h, hs, create_simple_posting, create_simple_posting_with_cost]

/-- C5 witness: the spec's buy scenario row produces the position leg of 10
XYZ at unit cost 5.00 USD followed by the cash leg of 50.00 USD. -/
theorem c5_witness :
    processRow witnessConfig none 0 c5row =
      Except.ok (some (witnessConfig.positions ++ ":" ++ c5row.symbol),
        ⟨0, c5row.date, narrationOf c5row,
         [⟨witnessConfig.positions ++ ":" ++ c5row.symbol, c5row.quantity, c5row.symbol,
           some (c5row.price, c5row.currency)⟩,
          ⟨witnessConfig.cash, c5row.amount, c5row.currency, none⟩]⟩) :=
  c5_buy_sell_postings witnessConfig none 0 c5row (Or.inl rfl) (by decide)

/-- Helper for C6: a recognized action never produces the unknown-action
error, whatever the row, configuration and prior state. -/
theorem recognized_not_unknown (config : Config) (st : Option String) (idx : Nat)
    (row : CanonicalRow) (hmem : row.action ∈ recognizedActions) (s : String) :
    processRow config st idx row ≠ Except.error (RowError.unknownAction s) := by
  simp only [recognizedActions, List.mem_cons, List.not_mem_nil, or_false] at hmem
  rcases hmem with h | h | h | h | h | h | h | h | h
  · simp [processRow, h]
  · simp [processRow, h]
  · simp [processRow, h]
  · cases hda : description_amount row.description with
    | none => simp [processRow, h, hda]
    | some da =>
      by_cases hz : da.num = 0
      · simp [processRow, h, hda, hz]
      · cases hap : (if row.symbol = "" then st
            else some (config.positions ++ ":" ++ row.symbol)) with
        | none => simp [processRow, h, hda, hz, hap]
        | some acct => simp [processRow, h, hda, hz, hap]
  · cases hap : (if row.symbol = "" then st
        else some (config.positions ++ ":" ++ row.symbol)) with
    | none => simp [processRow, h, hap]
    | some acct => simp [processRow, h, hap]
  · cases hap : (if row.symbol = "" then st
        else some (config.positions ++ ":" ++ row.symbol)) with
    | none => simp [processRow, h, hap]
    | some acct => simp [processRow, h, hap]
  · by_cases ht : truthyOptDec (description_amount row.description)
    · simp [processRow, h, ht]
    · cases hap : (if row.symbol = "" then st
          else some (config.positions ++ ":" ++ row.symbol)) with
      | none => simp [processRow, h, ht, hap]
      | some acct => simp [processRow, h, ht, hap]
  · by_cases ht : truthyOptDec (description_amount row.description)
    · simp [processRow, h, ht]
    · cases hap : (if row.symbol = "" then st
          else some (config.positions ++ ":" ++ row.symbol)) with
      | none => simp [processRow, h, ht, hap]
      | some acct => simp [processRow, h, ht, hap]
  · by_cases ht : truthyOptDec (description_amount row.description)
    · simp [processRow, h, ht]
    · simp [processRow, h, ht]

/-- C6: synthesis returns the unknown-action error carrying the row's
literal action text (and hence produces no transaction) exactly when the
action is outside the recognized set `{ADJ RR, RTC RR, EXH AB, DIV F6, Buy,
Sell, SEL FF, PUR FF, DIST}`; every action inside the set is handled by an
arm of the classification chain instead. -/
theorem c6_unknown_action (config : Config) (st : Option String) (idx : Nat)
    (row : CanonicalRow) :
    processRow config st idx row = Except.error (RowError.unknownAction row.action) ↔
      row.action ∉ recognizedActions := by
  constructor
  · intro h hmem
    exact recognized_not_unknown config st idx row hmem row.action h
  · intro h
    have h1 : ¬row.action = "ADJ RR" := fun e => h (by simp [recognizedActions, e])
    have h2 : ¬row.action = "RTC RR" := fun e => h (by simp [recognizedActions, e])
    have h3 : ¬row.action = "EXH AB" := fun e => h (by simp [recognizedActions, e])
    have h4 : ¬row.action = "DIV F6" := fun e => h (by simp [recognizedActions, e])
    have h5 : ¬row.action = "Buy" := fun e => h (by simp [recognizedActions, e])
    have h6 : ¬row.action = "Sell" := fun e => h (by simp [recognizedActions, e])
    have h7 : ¬row.action = "SEL FF" := fun e => h (by simp [recognizedActions, e])
    have h8 : ¬row.action = "PUR FF" := fun e => h (by simp [recognizedActions, e])
    have h9 : ¬row.action = "DIST" := fun e => h (by simp [recognizedActions, e])
    simp [processRow, h1, h2, h3, h4, h5, h6, h7, h8, h9]

/-- C7: on a raw row whose action field is empty and whose other fields
parse, normalization resolves the action to exactly `DIST` when the
description contains `DIST` as a standalone word, and fails with the
malformed-row error carrying the description text exactly when it does
not. -/
theorem c7_action_inference (row : RawRow) (d st : Date) (q p a : Dec)
    (ha : row.action = "")
    (hd : parseDate row.date = some d) (hst : parseDate row.settlement = some st)
    (hq : decimal row.quantity = some q) (hp : decimal row.price = some p)
    (hA : decimal row.amount = some a) :
    (hasWordDIST row.description = true →
      (fixup_row row).toOption.map CanonicalRow.action = some "DIST") ∧
    (fixup_row row = Except.error (FixupError.malformedRow row.description) ↔
      hasWordDIST row.description = false) := by
  cases hw : hasWordDIST row.description <;>
    simp [fixup_row, hd, hst, hq, hp, hA, ha, hw, Except.toOption]

/-- C7 witness: the row with empty action and description `"CASH DIST"`
resolves to action `DIST`. -/
theorem c7_witness :
    (fixup_row c7row).toOption.map CanonicalRow.action = some "DIST" :=
  (c7_action_inference c7row ⟨2013, 6, 1⟩ ⟨2013, 6, 1⟩ ⟨0, 0⟩ ⟨0, 0⟩ ⟨0, 0⟩
      rfl rfl rfl rfl rfl rfl).1 rfl

/-- C9: on a canonical row with an empty symbol whose action needs the
position account, the account is not derived from that row: when no earlier
row assigned `account_position` the row fails (an unbound local), and
otherwise the first posting silently reuses whatever position account an
earlier row left behind, and the carried state is returned unchanged — so
the emitted transaction depends on state left by earlier rows, not on the
current row and configuration alone. -/
theorem c9_position_account_reuse (config : Config) (idx : Nat) (row : CanonicalRow)
    (hsym : row.symbol = "")
    (hact : row.action = "DIV F6" ∨ row.action = "Buy" ∨ row.action = "Sell" ∨
      row.action = "SEL FF" ∨ row.action = "PUR FF")
    (hpre : armPreOk row = true) :
    (processRow config none idx row).toOption = none ∧
    ∀ acct : String,
      ((processRow config (some acct) idx row).toOption.bind
        (fun r => r.2.postings.head?.map Posting.account)) = some acct ∧
      (processRow config (some acct) idx row).toOption.map Prod.fst = some (some acct) := by
  rcases hact with h | h | h | h | h
  · -- DIV F6: the precondition gives a truthy description amount
    rw [armPreOk, if_pos h] at hpre
    cases hda : description_amount row.description with
    | none => rw [hda] at hpre; simp [truthyOptDec] at hpre
    | some da =>
      rw [hda] at hpre
      simp only [truthyOptDec, Bool.not_eq_true'] at hpre
      have hz : ¬da.num = 0 := by simpa using hpre
      refine ⟨by simp [processRow, h, hsym, hda, hz, Except.toOption], fun acct => ?_⟩
      simp [processRow, h, hsym, hda, hz, Except.toOption, create_simple_posting_with_cost]
  · exact ⟨by simp [processRow, h, hsym, Except.toOption], fun acct => by
      simp [processRow, h, hsym, Except.toOption, create_simple_posting_with_cost]⟩
  · exact ⟨by simp [processRow, h, hsym, Except.toOption], fun acct => by
      simp [processRow, h, hsym, Except.toOption, create_simple_posting_with_cost]⟩
  · rw [armPreOk, if_neg (by simp [h]), if_pos (Or.inl h)] at hpre
    have hf : truthyOptDec (description_amount row.description) = false := by
      simpa using hpre
    exact ⟨by simp [processRow, h, hsym, hf, Except.toOption], fun acct => by
      simp [processRow, h, hsym, hf, Except.toOption, create_simple_posting]⟩
  · rw [armPreOk, if_neg (by simp [h]), if_pos (Or.inr h)] at hpre
    have hf : truthyOptDec (description_amount row.description) = false := by
      simpa using hpre
    exact ⟨by simp [processRow, h, hsym, hf, Except.toOption], fun acct => by
      simp [processRow, h, hsym, hf, Except.toOption, create_simple_posting]⟩

/-- C9 witness: a buy row with an empty symbol fails when it is first, and
after a prior state of `Assets:Positions:PRIOR` its cost posting silently
uses that earlier account. -/
theorem c9_witness :
    (processRow witnessConfig none 0 c9row).toOption = none ∧
    ((processRow witnessConfig (some "Assets:Positions:PRIOR") 0 c9row).toOption.bind
      (fun r => r.2.postings.head?.map Posting.account)) = some "Assets:Positions:PRIOR" :=
  ⟨(c9_position_account_reuse witnessConfig 0 c9row rfl (Or.inr (Or.inl rfl)) rfl).1,
   ((c9_position_account_reuse witnessConfig 0 c9row rfl (Or.inr (Or.inl rfl)) rfl).2
      "Assets:Positions:PRIOR").1⟩

/-- C10: a `DIV F6` row whose description carries a dollar amount of
exactly zero fails with the very same assertion error as a `DIV F6` row
with no description amount at all: `assert description_amount` tests Python
truthiness, so the enforced precondition is presence and non-zeroness. -/
theorem c10_divf6_zero_amount (config : Config) (st : Option String) (idx : Nat)
    (row : CanonicalRow) (d : Dec) (hact : row.action = "DIV F6")
    (hda : description_amount row.description = some d) (hz : d.num = 0) :
    processRow config st idx row = Except.error RowError.assertionError ∧
    processRow config st idx { row with description := "" } =
      Except.error RowError.assertionError := by
  constructor
  · simp [processRow, hact, hda, hz]
  · simp [processRow, hact, show description_amount "" = none from rfl]

/-- C10 witness: the `DIV F6` row with description `"PAID $0.00 DIV"` fails
with the assertion error, exactly like the same row with an empty
description. -/
theorem c10_witness :
    processRow witnessConfig (some "X") 0 c10row = Except.error RowError.assertionError ∧
    processRow witnessConfig (some "X") 0 { c10row with description := "" } =
      Except.error RowError.assertionError :=
  c10_divf6_zero_amount witnessConfig (some "X") 0 c10row ⟨0, 2⟩ rfl rfl rfl

/-- C3 amended: the unit-scale correction keys on the marker at the start
of the description (`re.match` anchors there): whenever normalization
succeeds, the normalized quantity is the parsed raw quantity divided by 1000
when the description starts with `1000THS`, and the parsed raw quantity
unchanged otherwise. -/
theorem c3_amended (raw : RawRow) (crow : CanonicalRow) (q0 : Dec)
    (h : fixup_row raw = Except.ok crow) (hq : decimal raw.quantity = some q0) :
    crow.quantity =
      if startsWith1000THS raw.description then Dec.div1000 q0 else q0 := by
  unfold fixup_row at h
  cases hd : parseDate raw.date with
  | none => rw [hd] at h; cases h
  | some d =>
    cases hst : parseDate raw.settlement with
    | none => rw [hd, hst] at h; cases h
    | some st =>
      rw [hd, hst, hq] at h
      cases hp : decimal raw.price with
      | none => rw [hp] at h; cases h
      | some p =>
        cases ha : decimal raw.amount with
        | none => rw [hp, ha] at h; cases h
        | some a0 =>
          rw [hp, ha] at h
          dsimp only at h
          by_cases hact : (if raw.action = "" then
              (if hasWordDIST raw.description then "DIST" else raw.action)
            else raw.action) = ""
          · rw [if_pos hact] at h; cases h
          · rw [if_neg hact] at h
            cases h
            rfl

/-- C3 amended witness: on the row whose description starts with
`1000THS`, the normalized quantity is the parsed raw quantity 1000 divided
by 1000. -/
theorem c3_amended_witness :
    c3markerCrow.quantity =
      if startsWith1000THS c3markerRaw.description then Dec.div1000 ⟨1000, 0⟩
      else ⟨1000, 0⟩ :=
  c3_amended c3markerRaw c3markerCrow ⟨1000, 0⟩ rfl rfl

/-- Reading back the digit character of a value below ten. -/
theorem dval_digitChar (n : Nat) (h : n < 10) : dval (digitChar n) = n := by
  interval_cases n <;> rfl

/-- Digit characters satisfy the digit class. -/
theorem isDigitChar_digitChar (n : Nat) : isDigitChar (digitChar n) = true := by
  unfold digitChar
  split <;> decide

/-- A digit character is not a dash. -/
theorem digit_not_dash {c : Char} (h : isDigitChar c = true) : ¬c = '-' := by
  rintro rfl
  exact absurd h (by decide)

/-- A digit character is not a comma. -/
theorem digit_not_comma {c : Char} (h : isDigitChar c = true) : (c == ',') = false := by
  by_cases hc : c = ','
  · subst hc; exact absurd h (by decide)
  · simp [hc]

/-- A digit character is not a dot. -/
theorem digit_not_dot {c : Char} (h : isDigitChar c = true) : ¬c = '.' := by
  rintro rfl
  exact absurd h (by decide)

/-- A digit character is not a plus sign. -/
theorem digit_not_plus {c : Char} (h : isDigitChar c = true) : ¬c = '+' := by
  rintro rfl
  exact absurd h (by decide)

/-- Unfolding of `parseFold` on the empty list. -/
theorem parseFold_nil (a : Nat) : parseFold a [] = a := rfl

/-- Unfolding of `parseFold` on a cons cell. -/
theorem parseFold_cons (a : Nat) (c : Char) (cs : List Char) :
    parseFold a (c :: cs) = parseFold (a * 10 + dval c) cs := rfl

/-- Unfolding of `natToDigitsAux` with remaining fuel. -/
theorem natToDigitsAux_succ (fuel n : Nat) :
    natToDigitsAux (fuel + 1) n =
      if n < 10 then [digitChar n]
      else natToDigitsAux fuel (n / 10) ++ [digitChar (n % 10)] := rfl

/-- Digit parsing distributes over concatenation. -/
theorem parseFold_append (xs ys : List Char) (a : Nat) :
    parseFold a (xs ++ ys) = parseFold (parseFold a xs) ys := by
  induction xs generalizing a with
  | nil => rfl
  | cons c cs ih => rw [List.cons_append, parseFold_cons, parseFold_cons, ih]

/-- Digit parsing from a non-zero accumulator shifts the accumulator past
the parsed digits. -/
theorem parseFold_shift (cs : List Char) (a : Nat) :
    parseFold a cs = a * 10 ^ cs.length + parseFold 0 cs := by
  induction cs generalizing a with
  | nil => simp [parseFold_nil]
  | cons c cs ih =>
    rw [parseFold_cons, parseFold_cons, ih (a * 10 + dval c), ih (0 * 10 + dval c)]
    rw [List.length_cons, pow_succ]
    ring

/-- Parsing the rendered digits of a natural number recovers it. -/
theorem parseFold_natToDigitsAux (fuel : Nat) :
    ∀ n, n < fuel → parseFold 0 (natToDigitsAux fuel n) = n := by
  induction fuel with
  | zero => intro n h; omega
  | succ fuel ih =>
    intro n h
    by_cases h10 : n < 10
    · rw [natToDigitsAux_succ, if_pos h10, parseFold_cons, parseFold_nil,
        dval_digitChar n h10]
      omega
    · rw [natToDigitsAux_succ, if_neg h10, parseFold_append]
      have hdiv : n / 10 < fuel := by
        have := Nat.div_lt_self (show 0 < n by omega) (show 1 < 10 by norm_num)
        omega
      rw [ih (n / 10) hdiv, parseFold_cons, parseFold_nil,
        dval_digitChar (n % 10) (Nat.mod_lt n (by norm_num))]
      omega

/-- Parsing the rendered digits of a natural number recovers it. -/
theorem parseFold_natToDigits (n : Nat) : parseFold 0 (natToDigits n) = n :=
  parseFold_natToDigitsAux (n + 1) n (Nat.lt_succ_self n)

/-- Rendered digits are digit characters. -/
theorem natToDigitsAux_all (fuel : Nat) :
    ∀ n, (natToDigitsAux fuel n).all isDigitChar = true := by
  induction fuel with
  | zero => intro n; rfl
  | succ fuel ih =>
    intro n
    rw [natToDigitsAux_succ]
    by_cases h10 : n < 10
    · simp [h10, isDigitChar_digitChar]
    · simp [h10, List.all_append, ih, isDigitChar_digitChar]

/-- Rendered digits are digit characters. -/
theorem natToDigits_all (n : Nat) : (natToDigits n).all isDigitChar = true :=
  natToDigitsAux_all (n + 1) n

/-- The rendered digits of a natural number are never empty. -/
theorem natToDigits_ne_nil (n : Nat) : natToDigits n ≠ [] := by
  rw [natToDigits, natToDigitsAux_succ]
  by_cases h10 : n < 10
  · simp [h10]
  · simp [h10]

/-- A natural number below `10 ^ (k + 1)` renders in at most `k + 1`
digits. -/
theorem natToDigitsAux_length (fuel : Nat) :
    ∀ n k, n < fuel → n < 10 ^ (k + 1) → (natToDigitsAux fuel n).length ≤ k + 1 := by
  induction fuel with
  | zero => intro n k h; omega
  | succ fuel ih =>
    intro n k h hk
    rw [natToDigitsAux_succ]
    by_cases h10 : n < 10
    · simp [h10]
    · rw [if_neg h10, List.length_append]
      cases k with
      | zero =>
        exfalso
        norm_num at hk
        omega
      | succ k2 =>
        have hdiv : n / 10 < fuel := by
          have := Nat.div_lt_self (show 0 < n by omega) (show 1 < 10 by norm_num)
          omega
        have hkk : n / 10 < 10 ^ (k2 + 1) := by
          rw [Nat.div_lt_iff_lt_mul (by norm_num : 0 < 10)]
          calc n < 10 ^ (k2 + 2) := hk
          _ = 10 ^ (k2 + 1) * 10 := by ring
        have := ih (n / 10) k2 hdiv hkk
        simp only [List.length_cons, List.length_nil]
        omega

/-- Leading zeros do not change the parsed value. -/
theorem parseFold_replicate (k : Nat) (cs : List Char) :
    parseFold 0 (List.replicate k '0' ++ cs) = parseFold 0 cs := by
  induction k with
  | zero => rfl
  | succ k ih =>
    rw [List.replicate_succ, List.cons_append, parseFold_cons]
    rw [show (0 : Nat) * 10 + dval '0' = 0 from rfl]
    exact ih

/-- Zero padding does not change the parsed value. -/
theorem parseFold_padZeros (w : Nat) (cs : List Char) :
    parseFold 0 (padZeros w cs) = parseFold 0 cs := by
  rw [padZeros]
  exact parseFold_replicate _ _

/-- A run of zero characters consists of digit characters. -/
theorem replicate_zero_all (k : Nat) : (List.replicate k '0').all isDigitChar = true := by
  rw [List.all_eq_true]
  intro x hx
  rw [List.eq_of_mem_replicate hx]
  decide

/-- Zero padding preserves the digit class. -/
theorem padZeros_all (w : Nat) (cs : List Char) (h : cs.all isDigitChar = true) :
    (padZeros w cs).all isDigitChar = true := by
  rw [padZeros, List.all_append, replicate_zero_all, h]
  rfl

/-- The length of a zero-padded digit string. -/
theorem padZeros_length (w : Nat) (cs : List Char) :
    (padZeros w cs).length = (w - cs.length) + cs.length := by
  simp [padZeros]

/-- Padding a non-empty string is non-empty. -/
theorem padZeros_ne_nil (w : Nat) (cs : List Char) (h : cs ≠ []) :
    padZeros w cs ≠ [] := by
  simp [padZeros, h]

/-- Unfolding of `splitDash` on a cons cell. -/
theorem splitDash_cons (c : Char) (cs : List Char) :
    splitDash (c :: cs) =
      if c = '-' then [] :: splitDash cs
      else
        match splitDash cs with
        | [] => [[c]]
        | p :: ps => (c :: p) :: ps := rfl

/-- A dash-free character list splits as a single group. -/
theorem splitDash_no_dash (a : List Char) (h : ∀ c ∈ a, ¬c = '-') :
    splitDash a = [a] := by
  induction a with
  | nil => rfl
  | cons c cs ih =>
    rw [splitDash_cons, if_neg (h c (List.mem_cons_self c cs))]
    rw [ih (fun x hx => h x (List.mem_cons_of_mem c hx))]

/-- Splitting at a dash after a dash-free prefix isolates the prefix. -/
theorem splitDash_append (a b : List Char) (h : ∀ c ∈ a, ¬c = '-') :
    splitDash (a ++ '-' :: b) = a :: splitDash b := by
  induction a with
  | nil => rw [List.nil_append, splitDash_cons, if_pos rfl]
  | cons c cs ih =>
    rw [List.cons_append, splitDash_cons, if_neg (h c (List.mem_cons_self c cs))]
    rw [ih (fun x hx => h x (List.mem_cons_of_mem c hx))]

/-- Parsing a zero-padded digit group succeeds with the unpadded value. -/
theorem parseDigits_pad (w : Nat) (cs : List Char) (hne : cs ≠ [])
    (hdig : cs.all isDigitChar = true) :
    parseDigits (padZeros w cs) = some (parseFold 0 cs) := by
  have hpne : padZeros w cs ≠ [] := padZeros_ne_nil w cs hne
  have hpe : (padZeros w cs).isEmpty = false := by
    cases hx : padZeros w cs with
    | nil => exact absurd hx hpne
    | cons y ys => rfl
  simp [parseDigits, hpe, padZeros_all w cs hdig, parseFold_padZeros]

/-- A successfully parsed date satisfies the calendar ranges the parser
checks. -/
theorem parseDate_ranges (s : String) (d : Date) (h : parseDate s = some d) :
    1 ≤ d.year ∧ d.year ≤ 9999 ∧ 1 ≤ d.month ∧ d.month ≤ 12 ∧
      1 ≤ d.day ∧ d.day ≤ daysInMonth d.year d.month := by
  unfold parseDate at h
  split at h
  · split at h
    · split at h
      · rename_i hcond
        cases h
        obtain ⟨-, -, -, c4, c5, c6, c7, c8, c9⟩ := hcond
        exact ⟨c4, c5, c6, c7, c8, c9⟩
      · cases h
    · cases h
  · cases h

/-- Every character of a zero-padded digit rendering is a digit, hence not
a dash. -/
theorem padded_digits_no_dash (w n : Nat) :
    ∀ c ∈ padZeros w (natToDigits n), ¬c = '-' := by
  intro c hc
  have hall := padZeros_all w (natToDigits n) (natToDigits_all n)
  rw [List.all_eq_true] at hall
  exact digit_not_dash (hall c hc)

/-- Formatting a calendar-valid date and parsing it back recovers the
date. -/
theorem parseDate_format_valid (y m dd : Nat) (h1 : 1 ≤ y) (h2 : y ≤ 9999)
    (h3 : 1 ≤ m) (h4 : m ≤ 12) (h5 : 1 ≤ dd) (h6 : dd ≤ daysInMonth y m) :
    parseDate (formatDate ⟨y, m, dd⟩) = some ⟨y, m, dd⟩ := by
  have hylen : (natToDigits y).length ≤ 4 :=
    natToDigitsAux_length (y + 1) y 3 (Nat.lt_succ_self y)
      (by have hp : (10 : Nat) ^ (3 + 1) = 10000 := by norm_num
          omega)
  have hmlen : (natToDigits m).length ≤ 2 :=
    natToDigitsAux_length (m + 1) m 1 (Nat.lt_succ_self m)
      (by have hp : (10 : Nat) ^ (1 + 1) = 100 := by norm_num
          omega)
  have hdim : daysInMonth y m ≤ 31 := by
    unfold daysInMonth
    split
    · split <;> omega
    · split <;> omega
  have hdlen : (natToDigits dd).length ≤ 2 :=
    natToDigitsAux_length (dd + 1) dd 1 (Nat.lt_succ_self dd)
      (by have hp : (10 : Nat) ^ (1 + 1) = 100 := by norm_num
          omega)
  have hdata : (formatDate ⟨y, m, dd⟩).data =
      padZeros 4 (natToDigits y) ++
        '-' :: (padZeros 2 (natToDigits m) ++ '-' :: padZeros 2 (natToDigits dd)) := rfl
  unfold parseDate
  rw [hdata]
  rw [splitDash_append _ _ (padded_digits_no_dash 4 y)]
  rw [splitDash_append _ _ (padded_digits_no_dash 2 m)]
  rw [splitDash_no_dash _ (padded_digits_no_dash 2 dd)]
  dsimp only
  rw [parseDigits_pad 4 _ (natToDigits_ne_nil y) (natToDigits_all y)]
  rw [parseDigits_pad 2 _ (natToDigits_ne_nil m) (natToDigits_all m)]
  rw [parseDigits_pad 2 _ (natToDigits_ne_nil dd) (natToDigits_all dd)]
  dsimp only
  rw [parseFold_natToDigits y, parseFold_natToDigits m, parseFold_natToDigits dd]
  split
  · rfl
  · rename_i hc
    exfalso
    apply hc
    refine ⟨?_, ?_, ?_, h1, h2, h3, h4, h5, h6⟩ <;>
      · rw [padZeros_length]; omega

/-- Any date the parser accepts round-trips through ISO formatting. -/
theorem parseDate_roundtrip (s : String) (d : Date) (h : parseDate s = some d) :
    parseDate (formatDate d) = some d := by
  obtain ⟨h1, h2, h3, h4, h5, h6⟩ := parseDate_ranges s d h
  obtain ⟨y, m, dd⟩ := d
  exact parseDate_format_valid y m dd h1 h2 h3 h4 h5 h6

/-- Unfolding of `splitDotAux` on a cons cell. -/
theorem splitDotAux_cons (c : Char) (cs : List Char) :
    splitDotAux (c :: cs) =
      if c = '.' then ([], some cs)
      else (c :: (splitDotAux cs).1, (splitDotAux cs).2) := rfl

/-- A dot-free character list splits with no fraction part. -/
theorem splitDotAux_no_dot (a : List Char) (h : ∀ c ∈ a, ¬c = '.') :
    splitDotAux a = (a, none) := by
  induction a with
  | nil => rfl
  | cons c cs ih =>
    rw [splitDotAux_cons, if_neg (h c (List.mem_cons_self c cs))]
    rw [ih (fun x hx => h x (List.mem_cons_of_mem c hx))]

/-- Splitting at the dot after a dot-free integer part separates the two
digit groups. -/
theorem splitDotAux_append (a b : List Char) (h : ∀ c ∈ a, ¬c = '.') :
    splitDotAux (a ++ '.' :: b) = (a, some b) := by
  induction a with
  | nil => rw [List.nil_append, splitDotAux_cons, if_pos rfl]
  | cons c cs ih =>
    rw [List.cons_append, splitDotAux_cons, if_neg (h c (List.mem_cons_self c cs))]
    rw [ih (fun x hx => h x (List.mem_cons_of_mem c hx))]

/-- Stripping commas from a comma-free character list is the identity. -/
theorem stripCommas_id (cs : List Char) (h : ∀ c ∈ cs, (c == ',') = false) :
    stripCommas cs = cs := by
  induction cs with
  | nil => rfl
  | cons c cs ih =>
    have hc : (!(c == ',')) = true := by
      rw [h c (List.mem_cons_self c cs)]
      rfl
    rw [stripCommas, List.filter_cons, if_pos hc]
    show c :: stripCommas cs = c :: cs
    exact congrArg (c :: ·) (ih (fun x hx => h x (List.mem_cons_of_mem c hx)))

/-- Unfolding of `decimal` on an explicit character list. -/
theorem decimal_mk (cs : List Char) :
    decimal ⟨cs⟩ = if cs.isEmpty then some ⟨0, 0⟩ else parseDecCore (stripCommas cs) := rfl

/-- On a non-empty comma-free character list, `decimal` is the sign-and-digits
parser. -/
theorem decimal_chars_eval (cs : List Char) (hne : cs ≠ [])
    (hnc : ∀ c ∈ cs, (c == ',') = false) :
    decimal ⟨cs⟩ = parseDecCore cs := by
  have hempty : cs.isEmpty = false := by
    cases cs with
    | nil => exact absurd rfl hne
    | cons a b => rfl
  rw [decimal_mk, if_neg (by simp [hempty]), stripCommas_id cs hnc]

/-- Unfolding of the sign parser on a cons cell. -/
theorem parseDecCore_cons (c : Char) (r : List Char) :
    parseDecCore (c :: r) =
      if c = '-' then parseDecTail true r
      else if c = '+' then parseDecTail false r
      else parseDecTail false (c :: r) := rfl

/-- A character list headed by a digit carries no sign, so the sign parser
falls through. -/
theorem parseDecCore_head_digit (c : Char) (rest : List Char)
    (hc : isDigitChar c = true) :
    parseDecCore (c :: rest) = parseDecTail false (c :: rest) := by
  rw [parseDecCore_cons, if_neg (digit_not_dash hc), if_neg (digit_not_plus hc)]

/-- The digit parser on sign-free all-digit text: integer value, no
fractional digits. -/
theorem parseDecTail_digits (neg : Bool) (cs : List Char) (hne : cs ≠ [])
    (hall : cs.all isDigitChar = true) :
    parseDecTail neg cs =
      some ⟨if neg then -(Int.ofNat (parseFold 0 cs)) else Int.ofNat (parseFold 0 cs),
            0⟩ := by
  have hnd : ∀ c ∈ cs, ¬c = '.' :=
    fun c hc => digit_not_dot ((List.all_eq_true.mp hall) c hc)
  have hempty : cs.isEmpty = false := by
    cases cs with
    | nil => exact absurd rfl hne
    | cons a b => rfl
  simp only [parseDecTail]
  rw [splitDotAux_no_dot cs hnd]
  simp [hempty, hall]

/-- The digit parser on sign-free text with one decimal point: the
coefficient concatenates both digit groups, the exponent is the fraction
length. -/
theorem parseDecTail_point (neg : Bool) (ip fp : List Char)
    (hnd : ∀ c ∈ ip, ¬c = '.') (hip : ip.all isDigitChar = true)
    (hfp : fp.all isDigitChar = true) (hfpne : fp ≠ []) :
    parseDecTail neg (ip ++ '.' :: fp) =
      some ⟨if neg then -(Int.ofNat (parseFold 0 (ip ++ fp)))
            else Int.ofNat (parseFold 0 (ip ++ fp)), fp.length⟩ := by
  have hfe : fp.isEmpty = false := by
    cases fp with
    | nil => exact absurd rfl hfpne
    | cons a b => rfl
  simp only [parseDecTail]
  rw [splitDotAux_append ip fp hnd]
  simp [hfe, hip, hfp]

/-- The rendering of a decimal contains no comma. -/
theorem renderDecChars_no_comma (d : Dec) : ∀ c ∈ renderDecChars d, (c == ',') = false := by
  intro c hc
  have hMall := padZeros_all (d.exp + 1) (natToDigits d.num.natAbs)
    (natToDigits_all d.num.natAbs)
  simp only [renderDecChars] at hc
  rcases List.mem_append.mp hc with h | h
  · by_cases hn : d.num < 0
    · rw [if_pos hn] at h
      rcases List.mem_cons.mp h with rfl | h
      · decide
      · exact absurd h (List.not_mem_nil c)
    · rw [if_neg hn] at h
      exact absurd h (List.not_mem_nil c)
  · by_cases he : d.exp = 0
    · rw [if_pos he] at h
      exact digit_not_comma ((List.all_eq_true.mp hMall) c h)
    · rw [if_neg he] at h
      rcases List.mem_append.mp h with h2 | h2
      · exact digit_not_comma
          ((List.all_eq_true.mp hMall) c (List.take_subset _ _ h2))
      · rcases List.mem_cons.mp h2 with rfl | h3
        · decide
        · exact digit_not_comma
            ((List.all_eq_true.mp hMall) c (List.drop_subset _ _ h3))

/-- The rendering of a decimal is never empty. -/
theorem renderDecChars_ne_nil (d : Dec) : renderDecChars d ≠ [] := by
  have hMne : padZeros (d.exp + 1) (natToDigits d.num.natAbs) ≠ [] :=
    padZeros_ne_nil _ _ (natToDigits_ne_nil _)
  simp only [renderDecChars]
  intro h
  rcases List.append_eq_nil.mp h with ⟨-, h2⟩
  by_cases he : d.exp = 0
  · rw [if_pos he] at h2
    exact hMne h2
  · rw [if_neg he] at h2
    rcases List.append_eq_nil.mp h2 with ⟨-, h3⟩
    exact List.cons_ne_nil _ _ h3

/-- The digit parser on an all-digit string split with a point before its
last `k + 1` characters recovers the whole digit string as coefficient and
`k + 1` as exponent. -/
theorem parseDecTail_frac (neg : Bool) (mg : List Char) (k : Nat)
    (hall : mg.all isDigitChar = true) (hlen : k + 2 ≤ mg.length) :
    parseDecTail neg
        (mg.take (mg.length - (k + 1)) ++ '.' :: mg.drop (mg.length - (k + 1))) =
      some ⟨if neg then -(Int.ofNat (parseFold 0 mg)) else Int.ofNat (parseFold 0 mg),
            k + 1⟩ := by
  have hIPnd : ∀ c ∈ mg.take (mg.length - (k + 1)), ¬c = '.' :=
    fun c hc => digit_not_dot ((List.all_eq_true.mp hall) c (List.take_subset _ _ hc))
  have hIPdig : (mg.take (mg.length - (k + 1))).all isDigitChar = true := by
    rw [List.all_eq_true]
    exact fun c hc => (List.all_eq_true.mp hall) c (List.take_subset _ _ hc)
  have hFPdig : (mg.drop (mg.length - (k + 1))).all isDigitChar = true := by
    rw [List.all_eq_true]
    exact fun c hc => (List.all_eq_true.mp hall) c (List.drop_subset _ _ hc)
  have hFPlen : (mg.drop (mg.length - (k + 1))).length = k + 1 := by
    rw [List.length_drop]
    omega
  have hFPne : mg.drop (mg.length - (k + 1)) ≠ [] := by
    have h0 : 0 < (mg.drop (mg.length - (k + 1))).length := by omega
    exact List.length_pos.mp h0
  rw [parseDecTail_point neg _ _ hIPnd hIPdig hFPdig hFPne]
  rw [List.take_append_drop, hFPlen]

/-- The sign parser falls through on the pointed rendering, whose first
character is a digit. -/
theorem parseDecCore_frac (mg : List Char) (k : Nat)
    (hall : mg.all isDigitChar = true) (hlen : k + 2 ≤ mg.length) :
    parseDecCore
        (mg.take (mg.length - (k + 1)) ++ '.' :: mg.drop (mg.length - (k + 1))) =
      parseDecTail false
        (mg.take (mg.length - (k + 1)) ++ '.' :: mg.drop (mg.length - (k + 1))) := by
  have hIPne : mg.take (mg.length - (k + 1)) ≠ [] := by
    have h0 : 0 < (mg.take (mg.length - (k + 1))).length := by
      rw [List.length_take]
      omega
    exact List.length_pos.mp h0
  cases hIP : mg.take (mg.length - (k + 1)) with
  | nil => exact absurd hIP hIPne
  | cons c rest =>
    have hcdig : isDigitChar c = true := by
      refine (List.all_eq_true.mp hall) c (List.take_subset (mg.length - (k + 1)) mg ?_)
      rw [hIP]
      exact List.mem_cons_self c rest
    rw [List.cons_append]
    rw [parseDecCore_head_digit c (rest ++ '.' :: mg.drop (mg.length - (k + 1))) hcdig]

/-- Parsing the Python rendering of any embedded decimal recovers it
exactly. -/
theorem decimal_renderDec (x : Dec) : decimal (renderDec x) = some x := by
  obtain ⟨num, e⟩ := x
  have hMall : (padZeros (e + 1) (natToDigits num.natAbs)).all isDigitChar = true :=
    padZeros_all _ _ (natToDigits_all _)
  have hMne : padZeros (e + 1) (natToDigits num.natAbs) ≠ [] :=
    padZeros_ne_nil _ _ (natToDigits_ne_nil _)
  have hMparse : parseFold 0 (padZeros (e + 1) (natToDigits num.natAbs)) = num.natAbs := by
    rw [parseFold_padZeros, parseFold_natToDigits]
  have hstep : decimal (renderDec ⟨num, e⟩) = parseDecCore (renderDecChars ⟨num, e⟩) := by
    rw [renderDec]
    exact decimal_chars_eval _ (renderDecChars_ne_nil _) (renderDecChars_no_comma _)
  rw [hstep]
  cases e with
  | zero =>
    have hchars : renderDecChars ⟨num, 0⟩ =
        (if num < 0 then ['-'] else []) ++ padZeros (0 + 1) (natToDigits num.natAbs) := rfl
    by_cases hn : num < 0
    · rw [hchars, if_pos hn]
      rw [show parseDecCore (['-'] ++ padZeros (0 + 1) (natToDigits num.natAbs)) =
          parseDecTail true (padZeros (0 + 1) (natToDigits num.natAbs)) from rfl]
      rw [parseDecTail_digits true _ hMne hMall, hMparse]
      have hv : -(Int.ofNat num.natAbs) = num := by
        rw [show Int.ofNat num.natAbs = (num.natAbs : Int) from rfl]
        omega
      show some (⟨-(Int.ofNat num.natAbs), 0⟩ : Dec) = some ⟨num, 0⟩
      rw [hv]
    · rw [hchars, if_neg hn, List.nil_append]
      cases hPad : padZeros (0 + 1) (natToDigits num.natAbs) with
      | nil => exact absurd hPad hMne
      | cons c rest =>
        have hcdig : isDigitChar c = true := by
          have hMall2 := hMall
          rw [hPad, List.all_cons, Bool.and_eq_true] at hMall2
          exact hMall2.1
        rw [parseDecCore_head_digit c rest hcdig, ← hPad]
        rw [parseDecTail_digits false _ hMne hMall, hMparse]
        have hv : Int.ofNat num.natAbs = num := by
          rw [show Int.ofNat num.natAbs = (num.natAbs : Int) from rfl]
          omega
        show some (⟨Int.ofNat num.natAbs, 0⟩ : Dec) = some ⟨num, 0⟩
        rw [hv]
  | succ k =>
    have hchars : renderDecChars ⟨num, k + 1⟩ =
        (if num < 0 then ['-'] else []) ++
          ((padZeros (k + 1 + 1) (natToDigits num.natAbs)).take
              ((padZeros (k + 1 + 1) (natToDigits num.natAbs)).length - (k + 1)) ++
            '.' :: (padZeros (k + 1 + 1) (natToDigits num.natAbs)).drop
              ((padZeros (k + 1 + 1) (natToDigits num.natAbs)).length - (k + 1))) := rfl
    have hLlen := padZeros_length (k + 1 + 1) (natToDigits num.natAbs)
    have hLge : k + 2 ≤ (padZeros (k + 1 + 1) (natToDigits num.natAbs)).length := by omega
    by_cases hn : num < 0
    · rw [hchars, if_pos hn]
      rw [show parseDecCore
            (['-'] ++ ((padZeros (k + 1 + 1) (natToDigits num.natAbs)).take
                ((padZeros (k + 1 + 1) (natToDigits num.natAbs)).length - (k + 1)) ++
              '.' :: (padZeros (k + 1 + 1) (natToDigits num.natAbs)).drop
                ((padZeros (k + 1 + 1) (natToDigits num.natAbs)).length - (k + 1)))) =
          parseDecTail true
            ((padZeros (k + 1 + 1) (natToDigits num.natAbs)).take
                ((padZeros (k + 1 + 1) (natToDigits num.natAbs)).length - (k + 1)) ++
              '.' :: (padZeros (k + 1 + 1) (natToDigits num.natAbs)).drop
                ((padZeros (k + 1 + 1) (natToDigits num.natAbs)).length - (k + 1)))
          from rfl]
      rw [parseDecTail_frac true _ k hMall hLge, hMparse]
      have hv : -(Int.ofNat num.natAbs) = num := by
        rw [show Int.ofNat num.natAbs = (num.natAbs : Int) from rfl]
        omega
      show some (⟨-(Int.ofNat num.natAbs), k + 1⟩ : Dec) = some ⟨num, k + 1⟩
      rw [hv]
    · rw [hchars, if_neg hn, List.nil_append]
      rw [parseDecCore_frac _ k hMall hLge]
      rw [parseDecTail_frac false _ k hMall hLge, hMparse]
      have hv : Int.ofNat num.natAbs = num := by
        rw [show Int.ofNat num.natAbs = (num.natAbs : Int) from rfl]
        omega
      show some (⟨Int.ofNat num.natAbs, k + 1⟩ : Dec) = some ⟨num, k + 1⟩
      rw [hv]

/-- C4 amended: normalization is idempotent exactly for the rows the
`1000THS` rescale does not touch: whenever a row normalizes successfully and
its description does not start with the `1000THS` marker, rendering the
canonical row back to raw text fields and normalizing again yields the very
same canonical row.  (On marker rows the rescale divides the quantity by
1000 once more, so idempotence fails there, as the counterexample shows.) -/
theorem c4_amended (raw : RawRow) (crow : CanonicalRow)
    (h : fixup_row raw = Except.ok crow)
    (hm : startsWith1000THS raw.description = false) :
    fixup_row (normalize_as_raw crow) = Except.ok crow := by
  have hmneg : ¬(startsWith1000THS raw.description = true) := by
    rw [hm]
    exact Bool.false_ne_true
  have hanz : ¬(amountEqStrZero (⟨0, 0⟩ : Dec) = true) := fun hh => Bool.false_ne_true hh
  unfold fixup_row at h
  cases hd : parseDate raw.date with
  | none => rw [hd] at h; cases h
  | some d =>
    cases hst : parseDate raw.settlement with
    | none => rw [hd, hst] at h; cases h
    | some st =>
      rw [hd, hst] at h
      cases hq : decimal raw.quantity with
      | none => rw [hq] at h; cases h
      | some q0 =>
        cases hp : decimal raw.price with
        | none => rw [hq, hp] at h; cases h
        | some p =>
          cases ha : decimal raw.amount with
          | none => rw [hq, hp, ha] at h; cases h
          | some a0 =>
            rw [hq, hp, ha] at h
            dsimp only at h
            rw [if_neg hmneg] at h
            rw [if_neg (show ¬(amountEqStrZero a0 = true) from fun hh =>
              Bool.false_ne_true hh)] at h
            by_cases hact : (if raw.action = "" then
                (if hasWordDIST raw.description then "DIST" else raw.action)
              else raw.action) = ""
            · rw [if_pos hact] at h
              cases h
            · rw [if_neg hact] at h
              cases h
              unfold normalize_as_raw fixup_row
              dsimp only
              rw [parseDate_roundtrip raw.date d hd,
                parseDate_roundtrip raw.settlement st hst]
              dsimp only
              rw [decimal_renderDec q0, decimal_renderDec p, decimal_renderDec a0]
              dsimp only
              rw [if_neg hmneg]
              rw [if_neg (show ¬(amountEqStrZero a0 = true) from fun hh =>
                Bool.false_ne_true hh)]
              rw [if_neg hact]
              rw [if_neg hact]

/-- C4 amended witness: the marker-free buy scenario row yields a canonical
row that normalizes to itself after re-rendering. -/
theorem c4_amended_witness :
    fixup_row (normalize_as_raw c4wcrow) = Except.ok c4wcrow :=
  c4_amended c4wraw c4wcrow rfl rfl

/-- A non-empty list is not `isEmpty`. -/
theorem isEmpty_eq_false {l : List Char} (h : l ≠ []) : l.isEmpty = false := by
  cases l with
  | nil => exact absurd rfl h
  | cons a b => rfl

/-- A list that is not `isEmpty` is non-empty. -/
theorem ne_nil_of_not_isEmpty {l : List Char} (h : ¬l.isEmpty = true) : l ≠ [] := by
  cases l with
  | nil => exact absurd rfl h
  | cons a b => exact List.cons_ne_nil a b

/-- A greedy run over a satisfying prefix stops exactly at the first
non-satisfying character. -/
theorem takeWhile_all_append (p : Char → Bool) (l1 : List Char) (x : Char)
    (l2 : List Char) (h1 : ∀ c ∈ l1, p c = true) (hx : p x = false) :
    (l1 ++ x :: l2).takeWhile p = l1 ∧ (l1 ++ x :: l2).dropWhile p = x :: l2 := by
  have hxneg : ¬(p x = true) := by
    rw [hx]
    exact Bool.false_ne_true
  induction l1 with
  | nil =>
    constructor
    · rw [List.nil_append, List.takeWhile_cons_of_neg hxneg]
    · rw [List.nil_append, List.dropWhile_cons_of_neg hxneg]
  | cons c cs ih =>
    have hc : p c = true := h1 c (List.mem_cons_self c cs)
    obtain ⟨iht, ihd⟩ := ih (fun y hy => h1 y (List.mem_cons_of_mem c hy))
    constructor
    · rw [List.cons_append, List.takeWhile_cons_of_pos hc, iht]
    · rw [List.cons_append, List.dropWhile_cons_of_pos hc, ihd]

/-- The fixed-position dollar-group match succeeds exactly on text shaped as
a non-empty run of digits and commas, a dot, and at least one digit. -/
theorem dollarGroupHere_isSome_iff (cs : List Char) :
    (dollarGroupHere cs).isSome = true ↔
      ∃ mid frac post, cs = mid ++ '.' :: (frac ++ post) ∧ mid ≠ [] ∧
        (∀ c ∈ mid, isAmtChar c = true) ∧ frac ≠ [] ∧
        (∀ c ∈ frac, isDigitChar c = true) := by
  constructor
  · intro h
    unfold dollarGroupHere at h
    dsimp only at h
    by_cases hm : (cs.takeWhile isAmtChar).isEmpty
    · rw [if_pos hm] at h
      simp at h
    · rw [if_neg hm] at h
      cases hrest : cs.dropWhile isAmtChar with
      | nil =>
        rw [hrest] at h
        simp at h
      | cons c rest2 =>
        rw [hrest] at h
        dsimp only at h
        by_cases hc : c = '.'
        · rw [if_pos hc] at h
          by_cases hf : (rest2.takeWhile isDigitChar).isEmpty
          · rw [if_pos hf] at h
            simp at h
          · rw [if_neg hf] at h
            subst hc
            refine ⟨cs.takeWhile isAmtChar, rest2.takeWhile isDigitChar,
              rest2.dropWhile isDigitChar, ?_, ne_nil_of_not_isEmpty hm,
              fun x hx => List.mem_takeWhile_imp hx, ne_nil_of_not_isEmpty hf,
              fun x hx => List.mem_takeWhile_imp hx⟩
            rw [List.takeWhile_append_dropWhile]
            conv_lhs => rw [← List.takeWhile_append_dropWhile (p := isAmtChar) (l := cs)]
            rw [hrest]
        · rw [if_neg hc] at h
          simp at h
  · rintro ⟨mid, frac, post, rfl, hmne, hmid, hfne, hfrac⟩
    unfold dollarGroupHere
    dsimp only
    obtain ⟨ht, hd2⟩ := takeWhile_all_append isAmtChar mid '.' (frac ++ post) hmid
      (by decide)
    rw [ht, hd2]
    rw [if_neg (by rw [isEmpty_eq_false hmne]; exact Bool.false_ne_true)]
    dsimp only
    rw [if_pos rfl]
    cases frac with
    | nil => exact absurd rfl hfne
    | cons f0 fr =>
      have hf0 : isDigitChar f0 = true := hfrac f0 (List.mem_cons_self f0 fr)
      rw [List.cons_append, List.takeWhile_cons_of_pos hf0]
      rw [if_neg (show ¬((f0 :: List.takeWhile isDigitChar (fr ++ post)).isEmpty = true)
        from Bool.false_ne_true)]
      rfl

/-- Unfolding of the dollar scanner on a cons cell. -/
theorem searchDollarGroup_cons (c : Char) (cs : List Char) :
    searchDollarGroup (c :: cs) =
      if c = '$' then
        match dollarGroupHere cs with
        | some g => some g
        | none => searchDollarGroup cs
      else searchDollarGroup cs := rfl

/-- The dollar scanner succeeds exactly when some position carries a `'$'`
whose following text matches the dollar group. -/
theorem searchDollarGroup_isSome_iff (cs : List Char) :
    (searchDollarGroup cs).isSome = true ↔
      ∃ pre rest, cs = pre ++ '$' :: rest ∧ (dollarGroupHere rest).isSome = true := by
  induction cs with
  | nil =>
    constructor
    · intro h
      simp [searchDollarGroup] at h
    · rintro ⟨pre, rest, heq, -⟩
      have hlen := congrArg List.length heq
      simp [List.length_append] at hlen
      omega
  | cons c cs ih =>
    by_cases hc : c = '$'
    · subst hc
      rw [searchDollarGroup_cons, if_pos rfl]
      cases hg : dollarGroupHere cs with
      | some g =>
        dsimp only
        constructor
        · intro
          exact ⟨[], cs, rfl, by rw [hg]; rfl⟩
        · intro
          rfl
      | none =>
        dsimp only
        rw [ih]
        constructor
        · rintro ⟨pre, rest, heq, hrest⟩
          exact ⟨'$' :: pre, rest, by rw [List.cons_append, heq], hrest⟩
        · rintro ⟨pre, rest, heq, hrest⟩
          cases pre with
          | nil =>
            rw [List.nil_append] at heq
            injection heq with h1 h2
            rw [← h2, hg] at hrest
            simp at hrest
          | cons p0 pre2 =>
            rw [List.cons_append] at heq
            injection heq with h1 h2
            exact ⟨pre2, rest, h2, hrest⟩
    · rw [searchDollarGroup_cons, if_neg hc, ih]
      constructor
      · rintro ⟨pre, rest, heq, hrest⟩
        exact ⟨c :: pre, rest, by rw [List.cons_append, heq], hrest⟩
      · rintro ⟨pre, rest, heq, hrest⟩
        cases pre with
        | nil =>
          rw [List.nil_append] at heq
          injection heq with h1 h2
          exact absurd h1 hc
        | cons p0 pre2 =>
          rw [List.cons_append] at heq
          injection heq with h1 h2
          exact ⟨pre2, rest, h2, hrest⟩

/-- A group returned by the dollar scanner was produced by the fixed-position
match at some position. -/
theorem searchDollarGroup_some (cs g : List Char)
    (h : searchDollarGroup cs = some g) : ∃ rest, dollarGroupHere rest = some g := by
  induction cs with
  | nil => cases h
  | cons c cs ih =>
    rw [searchDollarGroup_cons] at h
    by_cases hc : c = '$'
    · rw [if_pos hc] at h
      cases hg : dollarGroupHere cs with
      | some g2 =>
        rw [hg] at h
        dsimp only at h
        cases h
        exact ⟨cs, hg⟩
      | none =>
        rw [hg] at h
        dsimp only at h
        exact ih h
    · rw [if_neg hc] at h
      exact ih h

/-- The comma-stripped matched group parses as a decimal: after stripping,
the integer part is all digits (possibly empty) and the fraction is a
non-empty digit run. -/
theorem decimal_group_isSome (mid frac : List Char)
    (hmid : ∀ c ∈ mid, isAmtChar c = true)
    (hfrac : ∀ c ∈ frac, isDigitChar c = true) (hfne : frac ≠ []) :
    (decimal ⟨mid ++ '.' :: frac⟩).isSome = true := by
  have hne : mid ++ '.' :: frac ≠ [] := by
    intro hx
    rcases List.append_eq_nil.mp hx with ⟨-, h2⟩
    exact List.cons_ne_nil _ _ h2
  rw [decimal_mk, if_neg (by rw [isEmpty_eq_false hne]; exact Bool.false_ne_true)]
  have h2 : stripCommas ('.' :: frac) = '.' :: frac := by
    refine stripCommas_id _ ?_
    intro c hcm
    rcases List.mem_cons.mp hcm with rfl | hcm
    · decide
    · exact digit_not_comma (hfrac c hcm)
  have h1 : stripCommas (mid ++ '.' :: frac) = stripCommas mid ++ '.' :: frac := by
    rw [stripCommas, List.filter_append]
    rw [show (('.' :: frac).filter fun c => !(c == ',')) = stripCommas ('.' :: frac)
      from rfl]
    rw [h2]
    rfl
  have hmd : (stripCommas mid).all isDigitChar = true := by
    rw [List.all_eq_true]
    intro c hcm
    have hmem := List.mem_of_mem_filter hcm
    have hp := List.of_mem_filter hcm
    have hamt := hmid c hmem
    rw [isAmtChar, Bool.or_eq_true] at hamt
    rcases hamt with hd | hcomma
    · exact hd
    · rw [hcomma] at hp
      exact absurd hp (by decide)
  have hfd : frac.all isDigitChar = true := by
    rw [List.all_eq_true]
    exact hfrac
  have hnodot : ∀ c ∈ stripCommas mid, ¬c = '.' :=
    fun c hcm => digit_not_dot ((List.all_eq_true.mp hmd) c hcm)
  rw [h1]
  cases hsm : stripCommas mid with
  | nil =>
    rw [List.nil_append]
    rw [show ('.' :: frac) = ([] : List Char) ++ '.' :: frac from rfl]
    rw [show parseDecCore (([] : List Char) ++ '.' :: frac) =
        parseDecTail false (([] : List Char) ++ '.' :: frac) from rfl]
    rw [parseDecTail_point false [] frac (by intro c hcx; cases hcx) rfl hfd hfne]
    rfl
  | cons c rest =>
    have hcd : isDigitChar c = true := by
      have hall2 := hmd
      rw [hsm, List.all_cons, Bool.and_eq_true] at hall2
      exact hall2.1
    rw [List.cons_append]
    rw [parseDecCore_head_digit c (rest ++ '.' :: frac) hcd]
    rw [← List.cons_append]
    have hnodot2 : ∀ x ∈ c :: rest, ¬x = '.' := by
      rw [← hsm]
      exact hnodot
    have hcd2 : (c :: rest).all isDigitChar = true := by
      rw [← hsm]
      exact hmd
    rw [parseDecTail_point false (c :: rest) frac hnodot2 hcd2 hfd hfne]
    rfl

/-- The matched group always parses: the description-amount extraction never
fails after a successful regex match. -/
theorem dollarGroupHere_decimal (cs g : List Char) (h : dollarGroupHere cs = some g) :
    (decimal ⟨g⟩).isSome = true := by
  unfold dollarGroupHere at h
  dsimp only at h
  by_cases hm : (cs.takeWhile isAmtChar).isEmpty
  · rw [if_pos hm] at h
    cases h
  · rw [if_neg hm] at h
    cases hrest : cs.dropWhile isAmtChar with
    | nil =>
      rw [hrest] at h
      cases h
    | cons c rest2 =>
      rw [hrest] at h
      dsimp only at h
      by_cases hc : c = '.'
      · rw [if_pos hc] at h
        by_cases hf : (rest2.takeWhile isDigitChar).isEmpty
        · rw [if_pos hf] at h
          cases h
        · rw [if_neg hf] at h
          cases h
          subst hc
          exact decimal_group_isSome (cs.takeWhile isAmtChar)
            (rest2.takeWhile isDigitChar)
            (fun x hx => List.mem_takeWhile_imp hx)
            (fun x hx => List.mem_takeWhile_imp hx)
            (ne_nil_of_not_isEmpty hf)
      · rw [if_neg hc] at h
        cases h

/-- C8 amended: the description-amount extraction returns a value exactly
when the description contains a `'$'` followed by one or more digits or
thousands separators, a dot, and a fraction of one or more digits (not
necessarily two); when it matches, the result is still the matched digits
with separators stripped, parsed as a decimal. -/
theorem c8_amended (s : String) :
    (description_amount s).isSome = true ↔
      ∃ pre mid frac post, s.data = pre ++ '$' :: (mid ++ '.' :: (frac ++ post)) ∧
        mid ≠ [] ∧ (∀ c ∈ mid, isAmtChar c = true) ∧ frac ≠ [] ∧
        (∀ c ∈ frac, isDigitChar c = true) := by
  constructor
  · intro h
    unfold description_amount at h
    cases hsg : searchDollarGroup s.data with
    | none =>
      rw [hsg] at h
      simp at h
    | some g =>
      have hs : (searchDollarGroup s.data).isSome = true := by
        rw [hsg]
        rfl
      obtain ⟨pre, rest, heq, hrest⟩ := (searchDollarGroup_isSome_iff s.data).mp hs
      obtain ⟨mid, frac, post, heq2, hmne, hmid, hfne, hfrac⟩ :=
        (dollarGroupHere_isSome_iff rest).mp hrest
      exact ⟨pre, mid, frac, post, by rw [heq, heq2], hmne, hmid, hfne, hfrac⟩
  · rintro ⟨pre, mid, frac, post, heq, hmne, hmid, hfne, hfrac⟩
    have hs : (searchDollarGroup s.data).isSome = true := by
      rw [searchDollarGroup_isSome_iff]
      refine ⟨pre, mid ++ '.' :: (frac ++ post), heq, ?_⟩
      rw [dollarGroupHere_isSome_iff]
      exact ⟨mid, frac, post, rfl, hmne, hmid, hfne, hfrac⟩
    unfold description_amount
    cases hsg : searchDollarGroup s.data with
    | none =>
      rw [hsg] at hs
      simp at hs
    | some g =>
      obtain ⟨rest2, hdg⟩ := searchDollarGroup_some s.data g hsg
      show (decimal ⟨g⟩).isSome = true
      exact dollarGroupHere_decimal rest2 g hdg

end RBC
